import Mathlib

/- Verification of the Geo-SInC InSAR data-preparation pipeline.

The development shallowly embeds the homegrown logic of the repository:
the mask/convert stage, the quadtree downsampling policy, the
coordinate/LOS reformatter of quadtree_decomposition_kite_workflow.ipynb,
the forward-model residual computation, and the multiLook helper of
02_RasterDataManipulation.ipynb.  Floating-point arrays are modelled over
the real numbers (exact rationals where the logic is purely arithmetic),
and NaN pixels are modelled as `none` in an `Option`-valued grid. -/

namespace GeoSInC

/- ### Coordinate / LOS reformatter
Embeds the cells of quadtree_decomposition_kite_workflow.ipynb that set
the kite scene angles and build the unit line-of-sight vectors. -/

/-- Degrees to radians, the embedding of np.radians. -/
noncomputable def radiansOf (d : ℝ) : ℝ := d * (Real.pi / 180)

/-- Embedding of the source line sc.theta = np.radians(90 - inc), where inc
is the incidence raster band value in degrees. -/
noncomputable def sceneTheta (inc : ℝ) : ℝ := radiansOf (90 - inc)

/-- Embedding of the source line sc.phi = np.radians(90 + azi), where azi
is the azimuth raster band value in degrees. -/
noncomputable def scenePhi (azi : ℝ) : ℝ := radiansOf (90 + azi)

/-- Embedding of losx = np.cos(qt.leaf_thetas) * -np.cos(qt.leaf_phis). -/
noncomputable def losx (theta phi : ℝ) : ℝ := Real.cos theta * -Real.cos phi

/-- Embedding of losy = np.cos(qt.leaf_thetas) * -np.sin(qt.leaf_phis). -/
noncomputable def losy (theta phi : ℝ) : ℝ := Real.cos theta * -Real.sin phi

/-- Embedding of losz = -np.sin(qt.leaf_thetas). -/
noncomputable def losz (theta : ℝ) : ℝ := -Real.sin theta

/-- Euclidean magnitude of the (losx, losy, losz) vector. -/
noncomputable def losNorm (theta phi : ℝ) : ℝ :=
  Real.sqrt (losx theta phi ^ 2 + losy theta phi ^ 2 + losz theta ^ 2)

/- ### Forward-model residual computation
Embeds the penalty / zero-shift cells of the okapy forward-model notebook:
penalty = np.sum(np.square(data[:,2]-model_los_disps)),
zero_shift = np.mean(data[:,2]-model_los_disps),
penalty = np.sum(np.square((data[:,2]-zero_shift)-model_los_disps)). -/

/-- Embedding of penalty = np.sum(np.square(data[:,2]-model_los_disps)),
with d the observed column data[:,2] and m the model predictions. -/
noncomputable def penalty (n : ℕ) (d m : Fin n → ℝ) : ℝ :=
  ∑ i, (d i - m i) ^ 2

/-- Embedding of zero_shift = np.mean(data[:,2]-model_los_disps). -/
noncomputable def zero_shift (n : ℕ) (d m : Fin n → ℝ) : ℝ :=
  (∑ i, (d i - m i)) / n

/-- Embedding of the corrected penalty
np.sum(np.square((data[:,2]-zero_shift)-model_los_disps)). -/
noncomputable def penaltyShifted (n : ℕ) (d m : Fin n → ℝ) : ℝ :=
  ∑ i, ((d i - zero_shift n d m) - m i) ^ 2

/- ### Quadtree downsampler
Modelled from the spec: the quadtree decomposition itself lives in the
third-party kite library and is not under src/; the notebooks only
configure it (qt.epsilon, qt.nan_allowed, qt.tile_size_min and
qt.tile_size_max).  The model follows the algorithm given by the spec:
recursive quartering, splitting a tile when its valid-pixel variance
exceeds epsilon and the split does not go below the minimum size, and
discarding leaves whose NaN fraction exceeds the allowance or which have
no valid pixel. -/

/-- A quadtree tile: lower-left pixel coordinate and size exponent, the
side length being 2 ^ k pixels. -/
structure QTile where
  x : ℕ
  y : ℕ
  k : ℕ
deriving DecidableEq

/-- Side length of a tile in pixels. -/
def tileSide (t : QTile) : ℕ := 2 ^ t.k

/-- A grid assigns to each pixel coordinate a value, none marking NaN. -/
def QGrid : Type := ℕ → ℕ → Option ℚ

/-- All pixels of a tile, NaN included. -/
def tilePixels (g : QGrid) (t : QTile) : List (Option ℚ) :=
  (List.range (tileSide t)).flatMap fun dx =>
    (List.range (tileSide t)).map fun dy => g (t.x + dx) (t.y + dy)

/-- Valid (non-NaN) pixel values of a tile. -/
def validPixels (g : QGrid) (t : QTile) : List ℚ :=
  (tilePixels g t).filterMap id

/-- Fraction of NaN pixels in a tile. -/
def nanFraction (g : QGrid) (t : QTile) : ℚ :=
  (((tilePixels g t).length - (validPixels g t).length : ℕ) : ℚ) /
    ((tilePixels g t).length : ℚ)

/-- Mean of the valid pixels of a tile (0 when the tile has none). -/
def tileMean (g : QGrid) (t : QTile) : ℚ :=
  (validPixels g t).sum / ((validPixels g t).length : ℚ)

/-- Variance of the valid pixels of a tile (0 when the tile has none). -/
def tileVariance (g : QGrid) (t : QTile) : ℚ :=
  ((validPixels g t).map fun v => (v - tileMean g t) ^ 2).sum /
    ((validPixels g t).length : ℚ)

/-- Accept a tile as a leaf when its NaN fraction is within the allowance
and it has at least one valid pixel; otherwise discard it. -/
def acceptLeaf (g : QGrid) (nanAllowed : ℚ) (t : QTile) : List QTile :=
  if nanFraction g t ≤ nanAllowed ∧ (validPixels g t).length ≠ 0 then [t]
  else []

/-- Modelled from the spec: recursive quartering.  A tile with side
2 ^ (k + 1) splits into its four quadrants when its variance exceeds
epsilon and the children (side 2 ^ k) are not below the minimum size;
otherwise it is accepted or discarded as a leaf. -/
def qtDecompose (g : QGrid) (eps nanAllowed : ℚ) (minSize : ℕ) :
    ℕ → ℕ → ℕ → List QTile
  | x, y, 0 => acceptLeaf g nanAllowed ⟨x, y, 0⟩
  | x, y, k + 1 =>
    if eps < tileVariance g ⟨x, y, k + 1⟩ ∧ minSize ≤ 2 ^ k then
      qtDecompose g eps nanAllowed minSize x y k ++
      qtDecompose g eps nanAllowed minSize (x + 2 ^ k) y k ++
      qtDecompose g eps nanAllowed minSize x (y + 2 ^ k) k ++
      qtDecompose g eps nanAllowed minSize (x + 2 ^ k) (y + 2 ^ k) k
    else acceptLeaf g nanAllowed ⟨x, y, k + 1⟩

/- ### Mask/convert stage
Embeds the masking and unit-conversion cell of
quadtree_decomposition_kite_workflow.ipynb. -/

/-- A raster grid of plain float values with explicit dimensions. -/
structure RealGrid where
  rows : ℕ
  cols : ℕ
  val : ℕ → ℕ → ℝ

/-- A raster grid whose pixels may be NaN, modelled as none. -/
structure OptGrid where
  rows : ℕ
  cols : ℕ
  val : ℕ → ℕ → Option ℝ

/-- The failure mode of the stage: numpy boolean-mask assignment raises
when the mask shape differs from the shape of the indexed array. -/
inductive StageError where
  | shapeMismatch
deriving DecidableEq

/-- Embedding of a numpy boolean-mask NaN assignment g[c < thresh] = nan,
which succeeds only when the comparison grid has the same shape as g. -/
noncomputable def maskWhereLT (g : OptGrid) (c : RealGrid) (thresh : ℝ) :
    Except StageError OptGrid :=
  if c.rows = g.rows ∧ c.cols = g.cols then
    Except.ok ⟨g.rows, g.cols, fun i j =>
      if c.val i j < thresh then none else g.val i j⟩
  else Except.error StageError.shapeMismatch

/-- Embedding of the in-place scaling ifg *= wavel/4/math.pi. -/
noncomputable def scaleGrid (g : OptGrid) (s : ℝ) : OptGrid :=
  ⟨g.rows, g.cols, fun i j => (g.val i j).map fun v => v * s⟩

/-- Lift a freshly loaded float raster into an Option-valued grid. -/
def liftGrid (g : RealGrid) : OptGrid :=
  ⟨g.rows, g.cols, fun i j => some (g.val i j)⟩

/-- Embedding of the mask/convert cell with the water mask in use:
ifg[msk < 1] = nan, then ifg *= wavel/4/math.pi, then
ifg[cor < cor_thresh] = nan. -/
noncomputable def maskConvertStage (ifg cor msk : RealGrid)
    (wavel thresh : ℝ) : Except StageError OptGrid :=
  (maskWhereLT (liftGrid ifg) msk 1).bind fun g1 =>
    maskWhereLT (scaleGrid g1 (wavel / 4 / Real.pi)) cor thresh

/- ### okinv output rows
Embeds the saving cell of quadtree_decomposition_kite_workflow.ipynb. -/

/-- Embedding of dataptid = np.arange(1, losx.size + 1). -/
def dataptid (n : ℕ) : List ℕ := List.range' 1 n

/-- Embedding of okinv_data = np.column_stack((xkm, ykm, qt.leaf_means,
losx, losy, losz, dataptid)): one seven-entry row per quadtree leaf, the
id entry cast to a float as numpy column_stack does. -/
def okinvData (n : ℕ) (xkm ykm means lx ly lz : ℕ → ℝ) : List (List ℝ) :=
  (List.range n).map fun j =>
    [xkm j, ykm j, means j, lx j, ly j, lz j, ((dataptid n).getD j 0 : ℝ)]

/- ### multiLook, from 02_RasterDataManipulation.ipynb -/

/-- Modelled from the spec: gdal.Translate with resampleAlg average and a
srcWin anchored at the origin performs box-car averaging, each output
pixel (i, j) being the mean of its (winW / outW) by (winH / outH) source
block inside the window.  gdal itself is an external library; only the
box-car contract stated by the spec is modelled. -/
def translateAvg (src : ℕ → ℕ → ℚ) (winW winH outW outH : ℕ) :
    ℕ → ℕ → ℚ :=
  fun i j =>
    ((List.range (winH / outH)).map fun dy =>
      ((List.range (winW / outW)).map fun dx =>
        src (i * (winW / outW) + dx) (j * (winH / outH) + dy)).sum).sum /
      (((winW / outW) * (winH / outH) : ℕ) : ℚ)

/-- Embedding of the multiLook function: the output dimensions are the
floor divisions xSize // xlooks and ySize // ylooks, and gdal.Translate
is invoked with srcWin = [0, 0, outXSize*xlooks, outYSize*ylooks]. -/
def multiLook (xSize ySize : ℕ) (src : ℕ → ℕ → ℚ) (xlooks ylooks : ℕ) :
    ℕ × ℕ × (ℕ → ℕ → ℚ) :=
  (xSize / xlooks, ySize / ylooks,
    translateAvg src (xSize / xlooks * xlooks) (ySize / ylooks * ylooks)
      (xSize / xlooks) (ySize / ylooks))

end GeoSInC

namespace GeoSInC

/-- Helper: a tile coming out of acceptLeaf is the argument tile and
satisfies the keep condition. -/
theorem mem_acceptLeaf {g : QGrid} {na : ℚ} {t0 t : QTile}
    (h : t ∈ acceptLeaf g na t0) :
    t = t0 ∧ nanFraction g t0 ≤ na ∧ (validPixels g t0).length ≠ 0 := by
  rw [acceptLeaf] at h
  split at h
  · rename_i hc
    simp only [List.mem_singleton] at h
    exact ⟨h, hc⟩
  · simp at h

/-- C1: for every per-tile incidence angle theta in [0, pi/2] and azimuth
phi in [0, 2*pi), the line-of-sight components losx, losy, losz of the
reformatter form a vector of magnitude exactly 1 over the reals. -/
theorem losNorm_eq_one (theta phi : ℝ)
    (htheta : theta ∈ Set.Icc (0 : ℝ) (Real.pi / 2))
    (hphi : phi ∈ Set.Ico (0 : ℝ) (2 * Real.pi)) :
    losNorm theta phi = 1 := by
  have h : losx theta phi ^ 2 + losy theta phi ^ 2 + losz theta ^ 2 = 1 := by
    simp only [losx, losy, losz]
    linear_combination (Real.cos theta) ^ 2 * Real.sin_sq_add_cos_sq phi +
      Real.sin_sq_add_cos_sq theta
  rw [losNorm, h, Real.sqrt_one]

/-- Witness for C1 at theta = 0, phi = 0. -/
theorem losNorm_eq_one_witness : losNorm 0 0 = 1 :=
  losNorm_eq_one 0 0 ⟨le_refl 0, by positivity⟩ ⟨le_refl 0, by positivity⟩

/-- C7 counterexample: the scene theta assigned by the code is
np.radians(90 - inc), so for the radar incidence inc = 90 degrees the
scene theta is 0, not the radian incidence pi/2: the per-tile theta does
not equal the incidence angle measured from vertical. -/
theorem sceneTheta_ne_radians_inc : sceneTheta 90 ≠ radiansOf 90 := by
  simp only [sceneTheta, radiansOf]
  intro h
  have hpi := Real.pi_pos
  nlinarith

/-- C7 amended: the scene angles satisfy theta = pi/2 - radians(inc)
(elevation measured up from horizontal, the complement of the incidence
angle from vertical) and phi = pi/2 + radians(azi); in the kite
convention the vector is up-looking with azimuth counter-clockwise from
East. -/
theorem sceneTheta_complement (inc azi : ℝ) :
    sceneTheta inc = Real.pi / 2 - radiansOf inc ∧
      scenePhi azi = Real.pi / 2 + radiansOf azi := by
  constructor <;> simp only [sceneTheta, scenePhi, radiansOf] <;> ring

/-- C6: the penalty is the sum of squared residuals and is nonnegative for
every pair of input vectors; the zero-level shift is the mean residual and
the corrected penalty subtracts it from the observed values before
recomputing the sum of squares, all in one deterministic pass. -/
theorem penalty_nonneg_and_shift_spec (n : ℕ) (d m : Fin n → ℝ) :
    0 ≤ penalty n d m ∧
      zero_shift n d m = (∑ i, (d i - m i)) / n ∧
      penaltyShifted n d m = ∑ i, ((d i - zero_shift n d m) - m i) ^ 2 :=
  ⟨Finset.sum_nonneg fun i _ => sq_nonneg _, rfl, rfl⟩

/-- Algebraic identity: the corrected penalty equals the uncorrected
penalty minus n times the squared mean residual. -/
theorem penaltyShifted_eq (n : ℕ) (hn : n ≠ 0) (d m : Fin n → ℝ) :
    penaltyShifted n d m = penalty n d m - n * zero_shift n d m ^ 2 := by
  have hcast : (n : ℝ) ≠ 0 := Nat.cast_ne_zero.mpr hn
  have hsum : ∑ i, (d i - m i) = n * zero_shift n d m := by
    rw [zero_shift, mul_div_cancel₀ _ hcast]
  have hterm : ∀ i : Fin n, ((d i - zero_shift n d m) - m i) ^ 2 =
      (d i - m i) ^ 2 - 2 * zero_shift n d m * (d i - m i) +
        zero_shift n d m ^ 2 := fun i => by ring
  rw [penaltyShifted, Finset.sum_congr rfl fun i _ => hterm i,
    Finset.sum_add_distrib, Finset.sum_sub_distrib, ← Finset.mul_sum, hsum,
    Finset.sum_const, Finset.card_univ, Fintype.card_fin, nsmul_eq_mul,
    penalty]
  ring

/-- C9: for observed and predicted vectors of the same non-zero length,
the zero-level-corrected penalty is at most the uncorrected penalty, with
equality exactly when the mean residual is zero. -/
theorem penaltyShifted_le_penalty (n : ℕ) (hn : n ≠ 0) (d m : Fin n → ℝ) :
    penaltyShifted n d m ≤ penalty n d m ∧
      (penaltyShifted n d m = penalty n d m ↔ zero_shift n d m = 0) := by
  have hk := penaltyShifted_eq n hn d m
  have hpos : (0 : ℝ) < n := Nat.cast_pos.mpr (Nat.pos_of_ne_zero hn)
  constructor
  · rw [hk]
    nlinarith [sq_nonneg (zero_shift n d m)]
  · rw [hk]
    constructor
    · intro h
      have h2 : (n : ℝ) * zero_shift n d m ^ 2 = 0 := by linarith
      rcases mul_eq_zero.mp h2 with h3 | h3
      · exact absurd h3 (ne_of_gt hpos)
      · exact pow_eq_zero_iff (two_ne_zero) |>.mp h3
    · intro h
      rw [h]
      ring

/-- C2: every tile produced by the quadtree downsampler has NaN fraction
within the configured allowance and at least one valid pixel; tiles
violating either condition are discarded entirely and are absent from the
output, so no tile is ever produced with an undefined mean. -/
theorem qt_nanFraction_le (g : QGrid) (eps na : ℚ) (minSize x y k : ℕ) :
    ∀ t ∈ qtDecompose g eps na minSize x y k,
      nanFraction g t ≤ na ∧ 0 < (validPixels g t).length := by
  induction k generalizing x y with
  | zero =>
    intro t ht
    obtain ⟨rfl, h1, h2⟩ := mem_acceptLeaf ht
    exact ⟨h1, Nat.pos_of_ne_zero h2⟩
  | succ k ih =>
    intro t ht
    rw [qtDecompose] at ht
    split at ht
    · simp only [List.mem_append] at ht
      rcases ht with ((ht | ht) | ht) | ht
      · exact ih x y t ht
      · exact ih (x + 2 ^ k) y t ht
      · exact ih x (y + 2 ^ k) t ht
      · exact ih (x + 2 ^ k) (y + 2 ^ k) t ht
    · obtain ⟨rfl, h1, h2⟩ := mem_acceptLeaf ht
      exact ⟨h1, Nat.pos_of_ne_zero h2⟩

/-- Helper: the decomposition of the constant 1-by-1 grid is the single
unit tile. -/
theorem qt_example_eval :
    qtDecompose (fun _ _ => some 1) 1 1 1 0 0 0 = [⟨0, 0, 0⟩] := by
  norm_num [qtDecompose, acceptLeaf, nanFraction, validPixels, tilePixels,
    tileSide, List.range_succ, List.range_zero, Option.some_ne_none]

/-- Witness for C2 on the constant 1-by-1 grid with allowance 1. -/
theorem qt_nanFraction_le_witness :
    nanFraction (fun _ _ => some 1) ⟨0, 0, 0⟩ ≤ 1 ∧
      0 < (validPixels (fun _ _ => some 1) ⟨0, 0, 0⟩).length :=
  qt_nanFraction_le (fun _ _ => some 1) 1 1 1 0 0 0 ⟨0, 0, 0⟩
    (by simp [qt_example_eval])

/-- C3: when the root tile side is within the configured bounds, every
tile produced by the quadtree downsampler has side length within
[minSize, maxSize]: no tile exceeds the maximum and no tile is ever split
below the minimum, whatever its variance. -/
theorem qt_size_bounds (g : QGrid) (eps na : ℚ) (minSize maxSize x y k : ℕ)
    (hmin : minSize ≤ 2 ^ k) (hmax : 2 ^ k ≤ maxSize) :
    ∀ t ∈ qtDecompose g eps na minSize x y k,
      minSize ≤ tileSide t ∧ tileSide t ≤ maxSize := by
  induction k generalizing x y with
  | zero =>
    intro t ht
    obtain ⟨rfl, -, -⟩ := mem_acceptLeaf ht
    exact ⟨hmin, hmax⟩
  | succ k ih =>
    intro t ht
    rw [qtDecompose] at ht
    split at ht
    · rename_i hc
      have hmax2 : 2 ^ k ≤ maxSize :=
        le_trans (Nat.pow_le_pow_right (by norm_num) (Nat.le_succ k)) hmax
      simp only [List.mem_append] at ht
      rcases ht with ((ht | ht) | ht) | ht
      · exact ih x y hc.2 hmax2 t ht
      · exact ih (x + 2 ^ k) y hc.2 hmax2 t ht
      · exact ih x (y + 2 ^ k) hc.2 hmax2 t ht
      · exact ih (x + 2 ^ k) (y + 2 ^ k) hc.2 hmax2 t ht
    · obtain ⟨rfl, -, -⟩ := mem_acceptLeaf ht
      exact ⟨hmin, hmax⟩

/-- Witness for C3 on the constant 1-by-1 grid with bounds [1, 1]. -/
theorem qt_size_bounds_witness :
    1 ≤ tileSide ⟨0, 0, 0⟩ ∧ tileSide ⟨0, 0, 0⟩ ≤ 1 :=
  qt_size_bounds (fun _ _ => some 1) 1 1 1 1 0 0 0 (by decide) (by decide)
    ⟨0, 0, 0⟩ (by simp [qt_example_eval])

/-- Helper: with matching shapes the stage reduces to the ok branch, with
the pixel map obtained by composing the three array operations. -/
theorem maskConvertStage_eq_ok (ifg cor msk : RealGrid) (wavel thresh : ℝ)
    (h1 : msk.rows = ifg.rows) (h2 : msk.cols = ifg.cols)
    (h3 : cor.rows = ifg.rows) (h4 : cor.cols = ifg.cols) :
    maskConvertStage ifg cor msk wavel thresh = Except.ok
      ⟨ifg.rows, ifg.cols, fun i j =>
        if cor.val i j < thresh then none
        else Option.map (fun v => v * (wavel / 4 / Real.pi))
          (if msk.val i j < 1 then none else some (ifg.val i j))⟩ := by
  simp only [maskConvertStage, maskWhereLT, liftGrid, scaleGrid,
    Except.bind, h1, h2, h3, h4, and_self, if_true]

/-- Helper: with any shape mismatch the stage reduces to the error
branch. -/
theorem maskConvertStage_eq_error (ifg cor msk : RealGrid)
    (wavel thresh : ℝ)
    (h : ¬(msk.rows = ifg.rows ∧ msk.cols = ifg.cols ∧
      cor.rows = ifg.rows ∧ cor.cols = ifg.cols)) :
    maskConvertStage ifg cor msk wavel thresh =
      Except.error StageError.shapeMismatch := by
  by_cases hA : msk.rows = ifg.rows ∧ msk.cols = ifg.cols
  · have hB : ¬(cor.rows = ifg.rows ∧ cor.cols = ifg.cols) :=
      fun hB => h ⟨hA.1, hA.2, hB.1, hB.2⟩
    simp only [maskConvertStage, maskWhereLT, liftGrid, scaleGrid,
      Except.bind, hA.1, hA.2, and_self, if_true]
    rw [if_neg hB]
  · simp only [maskConvertStage, maskWhereLT, liftGrid, scaleGrid]
    rw [if_neg hA]
    rfl

/-- C4: with matching grid shapes, the mask/convert stage succeeds and
every pixel whose coherence is strictly below the threshold or whose
water-mask value is strictly below 1 is NaN, while every other pixel is
the input phase times wavelength / (4 * pi). -/
theorem maskConvertStage_spec (ifg cor msk : RealGrid) (wavel thresh : ℝ)
    (h1 : msk.rows = ifg.rows) (h2 : msk.cols = ifg.cols)
    (h3 : cor.rows = ifg.rows) (h4 : cor.cols = ifg.cols) :
    ∃ out, maskConvertStage ifg cor msk wavel thresh = Except.ok out ∧
      out.rows = ifg.rows ∧ out.cols = ifg.cols ∧
      ∀ i j, out.val i j =
        if cor.val i j < thresh ∨ msk.val i j < 1 then none
        else some (ifg.val i j * (wavel / (4 * Real.pi))) := by
  refine ⟨_, maskConvertStage_eq_ok ifg cor msk wavel thresh h1 h2 h3 h4,
    rfl, rfl, fun i j => ?_⟩
  by_cases hc : cor.val i j < thresh <;> by_cases hm : msk.val i j < 1 <;>
    simp [hc, hm, div_div]

/-- Witness for C4 on matching 1-by-1 grids. -/
theorem maskConvertStage_spec_witness :
    ∃ out, maskConvertStage ⟨1, 1, fun _ _ => 0⟩ ⟨1, 1, fun _ _ => 1⟩
        ⟨1, 1, fun _ _ => 1⟩ 1 0 = Except.ok out ∧
      out.rows = (⟨1, 1, fun _ _ => 0⟩ : RealGrid).rows ∧
      out.cols = (⟨1, 1, fun _ _ => 0⟩ : RealGrid).cols ∧
      ∀ i j, out.val i j =
        if (⟨1, 1, fun _ _ => 1⟩ : RealGrid).val i j < 0 ∨
            (⟨1, 1, fun _ _ => 1⟩ : RealGrid).val i j < 1 then none
        else some ((⟨1, 1, fun _ _ => 0⟩ : RealGrid).val i j *
          (1 / (4 * Real.pi))) :=
  maskConvertStage_spec ⟨1, 1, fun _ _ => 0⟩ ⟨1, 1, fun _ _ => 1⟩
    ⟨1, 1, fun _ _ => 1⟩ 1 0 rfl rfl rfl rfl

/-- C8: the mask/convert stage succeeds exactly when the displacement,
coherence and water-mask grids all have matching dimensions, and its only
error condition is the shape-mismatch error. -/
theorem maskConvertStage_fail_iff (ifg cor msk : RealGrid)
    (wavel thresh : ℝ) :
    ((∃ out, maskConvertStage ifg cor msk wavel thresh = Except.ok out) ↔
      (msk.rows = ifg.rows ∧ msk.cols = ifg.cols ∧
        cor.rows = ifg.rows ∧ cor.cols = ifg.cols)) ∧
      ∀ e, maskConvertStage ifg cor msk wavel thresh = Except.error e →
        e = StageError.shapeMismatch := by
  refine ⟨?_, fun e _ => by cases e; rfl⟩
  by_cases hS : msk.rows = ifg.rows ∧ msk.cols = ifg.cols ∧
      cor.rows = ifg.rows ∧ cor.cols = ifg.cols
  · obtain ⟨h1, h2, h3, h4⟩ := hS
    rw [maskConvertStage_eq_ok ifg cor msk wavel thresh h1 h2 h3 h4]
    exact ⟨fun _ => ⟨h1, h2, h3, h4⟩, fun _ => ⟨_, rfl⟩⟩
  · rw [maskConvertStage_eq_error ifg cor msk wavel thresh hS]
    constructor
    · rintro ⟨out, h⟩
      exact absurd h (by simp)
    · intro h
      exact absurd h hS

/-- Witness for C8 on matching 1-by-1 grids. -/
theorem maskConvertStage_fail_iff_witness :
    ((∃ out, maskConvertStage ⟨1, 1, fun _ _ => 0⟩ ⟨1, 1, fun _ _ => 1⟩
        ⟨1, 1, fun _ _ => 1⟩ 1 0 = Except.ok out) ↔
      ((⟨1, 1, fun _ _ => 1⟩ : RealGrid).rows =
          (⟨1, 1, fun _ _ => 0⟩ : RealGrid).rows ∧
        (⟨1, 1, fun _ _ => 1⟩ : RealGrid).cols =
          (⟨1, 1, fun _ _ => 0⟩ : RealGrid).cols ∧
        (⟨1, 1, fun _ _ => 1⟩ : RealGrid).rows =
          (⟨1, 1, fun _ _ => 0⟩ : RealGrid).rows ∧
        (⟨1, 1, fun _ _ => 1⟩ : RealGrid).cols =
          (⟨1, 1, fun _ _ => 0⟩ : RealGrid).cols)) ∧
      ∀ e, maskConvertStage ⟨1, 1, fun _ _ => 0⟩ ⟨1, 1, fun _ _ => 1⟩
          ⟨1, 1, fun _ _ => 1⟩ 1 0 = Except.error e →
        e = StageError.shapeMismatch :=
  maskConvertStage_fail_iff ⟨1, 1, fun _ _ => 0⟩ ⟨1, 1, fun _ _ => 1⟩
    ⟨1, 1, fun _ _ => 1⟩ 1 0

/-- C5: the reformatter writes one row per quadtree leaf, each row has
seven entries, and the id entries in row order are the consecutive
integers 1, 2, ..., n. -/
theorem okinvData_rows (n : ℕ) (xkm ykm means lx ly lz : ℕ → ℝ) :
    (okinvData n xkm ykm means lx ly lz).length = n ∧
      (okinvData n xkm ykm means lx ly lz).map List.length =
        List.replicate n 7 ∧
      (okinvData n xkm ykm means lx ly lz).map (fun r => r.getD 6 0) =
        (List.range' 1 n).map (Nat.cast : ℕ → ℝ) := by
  refine ⟨by simp [okinvData], ?_, ?_⟩
  · apply List.ext_getElem
    · simp [okinvData]
    · intro i h1 h2
      simp [okinvData]
  · apply List.ext_getElem
    · simp only [List.length_map, okinvData, List.length_range,
        List.length_range']
    · intro i h1 h2
      have hn : i < n := by simpa [okinvData] using h1
      have hi : i < (dataptid n).length := by simpa [dataptid] using hn
      simp only [okinvData, List.getElem_map, List.getElem_range,
        List.getD_cons_succ, List.getD_cons_zero]
      rw [List.getD_eq_getElem _ _ hi]
      simp only [dataptid, List.getElem_range'_1]

/-- Helper: inside the output bounds, a multiLook pixel is the average of
its xlooks-by-ylooks source block. -/
theorem multiLook_pixel (xSize ySize : ℕ) (src : ℕ → ℕ → ℚ)
    (xlooks ylooks i j : ℕ)
    (hi : i < xSize / xlooks) (hj : j < ySize / ylooks) :
    (multiLook xSize ySize src xlooks ylooks).2.2 i j =
      ((List.range ylooks).map fun dy =>
        ((List.range xlooks).map fun dx =>
          src (i * xlooks + dx) (j * ylooks + dy)).sum).sum /
        ((xlooks * ylooks : ℕ) : ℚ) := by
  have hox : 0 < xSize / xlooks := lt_of_le_of_lt (Nat.zero_le i) hi
  have hoy : 0 < ySize / ylooks := lt_of_le_of_lt (Nat.zero_le j) hj
  have ebx : xSize / xlooks * xlooks / (xSize / xlooks) = xlooks :=
    Nat.mul_div_cancel_left _ hox
  have eby : ySize / ylooks * ylooks / (ySize / ylooks) = ylooks :=
    Nat.mul_div_cancel_left _ hoy
  simp only [multiLook, translateAvg, ebx, eby]

/-- C10: multiLook produces an output of exactly (xSize / xlooks) by
(ySize / ylooks) pixels; each output pixel is the average of its
xlooks-by-ylooks block of the origin-anchored source window, and two
inputs that agree on that window produce identical outputs, so trailing
remainder columns and rows never contribute. -/
theorem multiLook_spec (xSize ySize : ℕ) (src src2 : ℕ → ℕ → ℚ)
    (xlooks ylooks : ℕ) (hx : 1 ≤ xlooks) (hy : 1 ≤ ylooks) :
    (multiLook xSize ySize src xlooks ylooks).1 = xSize / xlooks ∧
      (multiLook xSize ySize src xlooks ylooks).2.1 = ySize / ylooks ∧
      (∀ i j, i < xSize / xlooks → j < ySize / ylooks →
        (multiLook xSize ySize src xlooks ylooks).2.2 i j =
          ((List.range ylooks).map fun dy =>
            ((List.range xlooks).map fun dx =>
              src (i * xlooks + dx) (j * ylooks + dy)).sum).sum /
            ((xlooks * ylooks : ℕ) : ℚ)) ∧
      ((∀ a b, a < xSize / xlooks * xlooks → b < ySize / ylooks * ylooks →
          src a b = src2 a b) →
        ∀ i j, i < xSize / xlooks → j < ySize / ylooks →
          (multiLook xSize ySize src xlooks ylooks).2.2 i j =
            (multiLook xSize ySize src2 xlooks ylooks).2.2 i j) := by
  refine ⟨rfl, rfl,
    fun i j hi hj => multiLook_pixel xSize ySize src xlooks ylooks i j hi hj,
    fun hagree i j hi hj => ?_⟩
  rw [multiLook_pixel xSize ySize src xlooks ylooks i j hi hj,
    multiLook_pixel xSize ySize src2 xlooks ylooks i j hi hj]
  have hmaps : ((List.range ylooks).map fun dy =>
      ((List.range xlooks).map fun dx =>
        src (i * xlooks + dx) (j * ylooks + dy)).sum) =
      ((List.range ylooks).map fun dy =>
        ((List.range xlooks).map fun dx =>
          src2 (i * xlooks + dx) (j * ylooks + dy)).sum) := by
    apply List.map_congr_left
    intro dy hdy
    apply congrArg List.sum
    apply List.map_congr_left
    intro dx hdx
    rw [List.mem_range] at hdy hdx
    apply hagree
    · calc i * xlooks + dx < i * xlooks + xlooks :=
            Nat.add_lt_add_left hdx _
        _ = (i + 1) * xlooks := (Nat.succ_mul i xlooks).symm
        _ ≤ xSize / xlooks * xlooks := Nat.mul_le_mul_right _ hi
    · calc j * ylooks + dy < j * ylooks + ylooks :=
            Nat.add_lt_add_left hdy _
        _ = (j + 1) * ylooks := (Nat.succ_mul j ylooks).symm
        _ ≤ ySize / ylooks * ylooks := Nat.mul_le_mul_right _ hj
  rw [hmaps]

/-- Witness for C10 with a 3-by-2 input, 2-by-1 looks, and a second input
differing only in the trailing remainder column. -/
theorem multiLook_spec_witness :
    (multiLook 3 2 (fun a b => (a : ℚ) + b) 2 1).1 = 3 / 2 ∧
      (multiLook 3 2 (fun a b => (a : ℚ) + b) 2 1).2.1 = 2 / 1 ∧
      (∀ i j, i < 3 / 2 → j < 2 / 1 →
        (multiLook 3 2 (fun a b => (a : ℚ) + b) 2 1).2.2 i j =
          ((List.range 1).map fun dy =>
            ((List.range 2).map fun dx =>
              ((i * 2 + dx : ℕ) : ℚ) + (j * 1 + dy : ℕ)).sum).sum /
            ((2 * 1 : ℕ) : ℚ)) ∧
      ((∀ a b : ℕ, a < 3 / 2 * 2 → b < 2 / 1 * 1 →
          ((a : ℚ) + b) =
            (if 2 ≤ a then 99 else (a : ℚ) + b)) →
        ∀ i j, i < 3 / 2 → j < 2 / 1 →
          (multiLook 3 2 (fun a b => (a : ℚ) + b) 2 1).2.2 i j =
            (multiLook 3 2 (fun a b =>
              if 2 ≤ a then 99 else (a : ℚ) + b) 2 1).2.2 i j) :=
  multiLook_spec 3 2 (fun a b => (a : ℚ) + b)
    (fun a b => if 2 ≤ a then 99 else (a : ℚ) + b) 2 1 (by decide) (by decide)

/-- Witness for C9 at n = 1, d = (2), m = (0). -/
theorem penaltyShifted_le_penalty_witness :
    penaltyShifted 1 (fun _ => 2) (fun _ => 0) ≤
        penalty 1 (fun _ => 2) (fun _ => 0) ∧
      (penaltyShifted 1 (fun _ => 2) (fun _ => 0) =
          penalty 1 (fun _ => 2) (fun _ => 0) ↔
        zero_shift 1 (fun _ => 2) (fun _ => 0) = 0) :=
  penaltyShifted_le_penalty 1 (by decide) (fun _ => 2) (fun _ => 0)

end GeoSInC
